import Mathlib

/-!
Shallow embedding of the `universal-dataCleaner` cleaning pipeline.

The repository holds two variants of the core entry point `clean_data`:
`src/app.py` (Streamlit front end; strategies delete / zero_missing /
mean_or_mode / forward_fill / backward_fill, zscore and iqr outlier
methods, categorical fallback) and `src/cleaner.py` (CLI variant;
strategies delete / zero_missing / mean_or_mode plus a silent text-fill
default, zscore outliers only).  Both are embedded below, `app.py` in
namespace `AppClean` and `cleaner.py` in namespace `CliClean`.

Modelling conventions:
* A pandas DataFrame is a `Table`: a header of column names and a list of
  rows, each row a list of `Cell`s.  A cell is a rational number, a
  string, or the missing marker `Cell.na` (NaN/None in pandas).
* A column has numeric dtype (`np.issubdtype(dtype, np.number)`) exactly
  when every cell of the column is `num` or `na`; this mirrors how pandas
  assigns `float64`/`int64` to such columns and `object` otherwise.
* Machine floats are embedded as exact rationals.  The z-score comparison
  `|x - mean| / std > t` is embedded square-free as
  `(x - mean)^2 > t^2 * var` (equivalent for `t >= 0`, `var > 0`); the
  degenerate cases (`std = 0` gives NaN z-scores whose comparisons are
  all False, `t < 0` flags everything) are spelled out explicitly.
* scipy/pandas exceptions are modelled with `Except String`.
-/

set_option maxRecDepth 8000

inductive Cell where
  | num (q : ℚ)
  | str (s : String)
  | na
deriving DecidableEq, Repr

structure Table where
  header : List String
  rows : List (List Cell)
deriving DecidableEq, Repr

/-- Column `j` of a table, read row-wise; absent positions read as `na`. -/
def Table.col (t : Table) (j : ℕ) : List Cell :=
  t.rows.map (fun r => r.getD j Cell.na)

/-- Well-formedness: every row has exactly one cell per header entry. -/
def Table.WF (t : Table) : Prop :=
  ∀ r ∈ t.rows, r.length = t.header.length

instance (t : Table) : Decidable t.WF :=
  inferInstanceAs (Decidable (∀ r ∈ t.rows, r.length = t.header.length))

/-- Replace column `j` by the cell list `v` (rows are updated pointwise). -/
def setCol (t : Table) (j : ℕ) (v : List Cell) : Table :=
  { t with rows := List.zipWith (fun r c => r.set j c) t.rows v }

/-- Append a fresh column named `nm` holding the cells `v`
(`df["new"] = series` appends at the end of the column order). -/
def addCol (t : Table) (nm : String) (v : List Cell) : Table :=
  { header := t.header ++ [nm], rows := List.zipWith (fun r c => r ++ [c]) t.rows v }

/-- Number of missing cells of a column (`series.isnull().sum()`). -/
def countNa (c : List Cell) : ℕ :=
  (c.filter (· = Cell.na)).length

/-- The non-missing numeric values of a column (`series.dropna()` on a
numeric column). -/
def nonNaNums (c : List Cell) : List ℚ :=
  c.filterMap (fun x => match x with | Cell.num q => some q | _ => none)

/-- The non-missing cells of a column. -/
def nonNaCells (c : List Cell) : List Cell :=
  c.filter (· ≠ Cell.na)

/-- `np.issubdtype(series.dtype, np.number)`: a pandas column is numeric
exactly when it holds no string values (all-`na` columns are `float64`,
hence numeric). -/
def isNumericCol (c : List Cell) : Bool :=
  c.all (fun x => match x with | Cell.str _ => false | _ => true)

/-- `series.mean()` over the non-missing values (none when all-missing:
pandas returns NaN and `fillna(NaN)` is a no-op). -/
def meanQ (m : List ℚ) : ℚ :=
  m.sum / (m.length : ℚ)

def meanOpt (m : List ℚ) : Option ℚ :=
  if m.isEmpty then none else some (meanQ m)

/-- `series.median()` over the non-missing values: middle element of the
sorted list, or the average of the two middle elements. -/
def medianQ (m : List ℚ) : ℚ :=
  let s := m.insertionSort (· ≤ ·)
  let n := s.length
  if n % 2 = 1 then s.getD (n / 2) 0
  else (s.getD (n / 2 - 1) 0 + s.getD (n / 2) 0) / 2

def medianOpt (m : List ℚ) : Option ℚ :=
  if m.isEmpty then none else some (medianQ m)

/-- `series.quantile(q)` with pandas' default linear interpolation over
the sorted non-missing values (the caller guards against empty input). -/
def quantileQ (q : ℚ) (m : List ℚ) : ℚ :=
  let s := m.insertionSort (· ≤ ·)
  let n := s.length
  let h : ℚ := q * ((n : ℚ) - 1)
  let i : ℕ := (Int.floor h).toNat
  let lo := s.getD i 0
  let hi := s.getD (min (i + 1) (n - 1)) 0
  lo + (h - (i : ℚ)) * (hi - lo)

/-- A total order on cells used to resolve ties when taking
`series.mode().iloc[0]` (pandas sorts the modes ascending and `iloc[0]`
takes the least). -/
def cellLe : Cell → Cell → Bool
  | Cell.na, _ => true
  | _, Cell.na => false
  | Cell.num a, Cell.num b => decide (a ≤ b)
  | Cell.num _, Cell.str _ => true
  | Cell.str _, Cell.num _ => false
  | Cell.str a, Cell.str b => decide (a < b) || decide (a = b)

/-- `series.mode().iloc[0]` when it exists: among the non-missing cells,
the most frequent one, ties resolved towards the least value; `none`
exactly when the column is entirely missing (`mode()` is empty). -/
def modeCell (c : List Cell) : Option Cell :=
  let cands := nonNaCells c
  cands.foldl
    (fun best x =>
      match best with
      | none => some x
      | some b =>
        let cx := (cands.filter (· = x)).length
        let cb := (cands.filter (· = b)).length
        if cx > cb then some x
        else if cx = cb && cellLe x b then some x
        else some b)
    none

/-- `series.fillna(v)`: replace every missing cell by `v`. -/
def fillna (c : List Cell) (v : Cell) : List Cell :=
  c.map (fun x => if x = Cell.na then v else x)

/-- `series.fillna(method="ffill")`: carry the last non-missing value
forward; leading missing cells stay missing. -/
def ffillGo : Option Cell → List Cell → List Cell
  | _, [] => []
  | last, Cell.na :: cs => last.getD Cell.na :: ffillGo last cs
  | _, Cell.num q :: cs => Cell.num q :: ffillGo (some (Cell.num q)) cs
  | _, Cell.str s :: cs => Cell.str s :: ffillGo (some (Cell.str s)) cs

def ffillCol (c : List Cell) : List Cell :=
  ffillGo none c

/-- `series.fillna(method="bfill")`. -/
def bfillCol (c : List Cell) : List Cell :=
  (ffillGo none c.reverse).reverse

/-- Python's `f"{v:.2f}"` on an exact rational (two decimal places). -/
def fmt2 (q : ℚ) : String :=
  let c : ℤ := Int.floor (q * 100 + 1 / 2)
  let sgn := if c < 0 then "-" else ""
  let a := c.natAbs
  let f := a % 100
  sgn ++ toString (a / 100) ++ "." ++ (if f < 10 then "0" else "") ++ toString f

/-- Python's `f"{v}"` on a cell value, as used in report strings. -/
def cellStr : Cell → String
  | Cell.str s => s
  | Cell.num q => fmt2 q
  | Cell.na => "nan"

/-- Rendering of the per-column missing-value dict inside the
consolidated step message (`f"Missing values handled: {null_report}"`). -/
def renderMap (m : List (String × String)) : String :=
  "\x7b" ++ String.intercalate ", "
    (m.map (fun p => "\x27" ++ p.1 ++ "\x27: \x27" ++ p.2 ++ "\x27")) ++ "\x7d"

/-- Rendering of `df.dtypes.to_dict()` in the type-optimization step.
Only the shape of the message matters to the report (no claim inspects
it); dtype names are rendered from the categorical declaration. -/
def renderDtypes (t : Table) (cats : List String) : String :=
  "\x7b" ++ String.intercalate ", "
    (t.header.map (fun nm =>
      "\x27" ++ nm ++ "\x27: " ++ (if nm ∈ cats then "category" else "auto"))) ++ "\x7d"

/-- `null_report[col] = msg`: Python dict assignment (replaces in place
when the key exists, appends otherwise). -/
def insertRep (m : List (String × String)) (k v : String) : List (String × String) :=
  match m with
  | [] => [(k, v)]
  | (k2, v2) :: rest => if k2 = k then (k2, v) :: rest else (k2, v2) :: insertRep rest k v

/-- `null_report.get(col, d)`. -/
def lookupD (m : List (String × String)) (k d : String) : String :=
  match m with
  | [] => d
  | (k2, v2) :: rest => if k2 = k then v2 else lookupD rest k d

/-- Column-name normalization:
`col.strip().lower().replace(" ", "_").replace("-", "_").replace("?", "")`. -/
def normName (s : String) : String :=
  String.mk (s.trim.toLower.data.filterMap
    (fun ch => if ch = '?' then none
               else if ch = ' ' || ch = '-' then some '_' else some ch))

/-- `df.drop_duplicates()`: drop rows equal to an earlier row, keeping
the first occurrence, preserving order (pandas treats NaN = NaN here). -/
def dedupAux (seen : List (List Cell)) : List (List Cell) → List (List Cell)
  | [] => []
  | r :: rs => if r ∈ seen then dedupAux seen rs else r :: dedupAux (r :: seen) rs

/-- First index of a column name in the header (`df.columns` lookup). -/
def colIdx (h : List String) (nm : String) : ℕ :=
  h.findIdx (· = nm)

/-- The audit trail `report = {"steps_taken": [...], "missing_values": {...}}`. -/
structure Report where
  steps : List String
  missing : List (String × String)
deriving DecidableEq, Repr

namespace AppClean

/-- `series.replace(diagnosis_map)` on a single cell:
`diagnosis_map = {"hypertension": "Hypertension", "high BP": "Hypertension"}`
matches whole values, case-sensitively. -/
def diagApply : Cell → Cell
  | Cell.str s =>
      if s = "hypertension" ∨ s = "high BP" then Cell.str "Hypertension" else Cell.str s
  | c => c

/-- app.py lines 37-41: if a column named exactly `"Diagnosis"` exists,
rewrite it through `diagApply`; otherwise, if a column named exactly
`"diagnosis"` exists, write its rewritten values to a NEW column
`"Diagnosis"` (appended at the end); otherwise do nothing. -/
def diagStage (t : Table) : Table × List String :=
  if "Diagnosis" ∈ t.header then
    let k := colIdx t.header "Diagnosis"
    (setCol t k ((t.col k).map diagApply), ["Standardized diagnosis values"])
  else if "diagnosis" ∈ t.header then
    let k := colIdx t.header "diagnosis"
    (addCol t "Diagnosis" ((t.col k).map diagApply), ["Standardized diagnosis values"])
  else (t, [])

/-- Population mean and variance of the non-missing values, as used by
`scipy.stats.zscore` (ddof = 0). -/
def zVar (m : List ℚ) : ℚ × ℚ :=
  let n : ℚ := (m.length : ℚ)
  let mu := m.sum / n
  (mu, (m.map (fun x => (x - mu) ^ 2)).sum / n)

/-- `|zscore(x)| > t`, square-free: for `var > 0` and `t ≥ 0` this is
`(x - mean)^2 > t^2 * var`; when `var = 0` the z-scores are NaN (0/0)
and every comparison is False; when `var > 0` and `t < 0` the comparison
`|z| > t` is always True. -/
def zIsOutlier (m : List ℚ) (t : ℚ) (x : ℚ) : Bool :=
  let p := zVar m
  if p.2 = 0 then false
  else if t < 0 then true
  else decide ((x - p.1) ^ 2 > t ^ 2 * p.2)

/-- app.py lines 56-62 (zscore branch on one numeric column).  The code
computes `z_scores` over `df[col].dropna()` and then masks with
`df[col].notnull() & (z_scores > threshold)`: when the column contains a
missing value and at least one outlier was found, the two boolean
vectors have different lengths and numpy raises a broadcast error. -/
def zscoreCol (t : ℚ) (rep nm : String) (c : List Cell) :
    Except String (List Cell × List String) :=
  let m := nonNaNums c
  let cnt := (m.filter (zIsOutlier m t)).length
  if cnt = 0 then Except.ok (c, [])
  else if countNa c > 0 then Except.error "operands could not be broadcast together"
  else
    let repl := if rep = "median" then medianQ m else meanQ m
    Except.ok
      (c.map (fun cell =>
        match cell with
        | Cell.num x => if zIsOutlier m t x then Cell.num repl else cell
        | _ => cell),
       ["Capped " ++ toString cnt ++ " outliers in " ++ nm ++ " to " ++ rep ++
        " (Z-Score, " ++ fmt2 repl ++ ")"])

/-- The IQR outlier predicate of app.py line 66:
`(df[col] < Q1 - 1.5*IQR) | (df[col] > Q3 + 1.5*IQR)` with
`Q1, Q3 = df[col].quantile([0.25, 0.75])`.  The multiplier is the
hard-coded literal 1.5; `outlier_threshold` does not occur. -/
def iqrFlag (m : List ℚ) (x : ℚ) : Bool :=
  let q1 := quantileQ (1 / 4) m
  let q3 := quantileQ (3 / 4) m
  let iqr := q3 - q1
  decide (x < q1 - 3 / 2 * iqr) || decide (x > q3 + 3 / 2 * iqr)

/-- app.py lines 63-70 (iqr branch on one numeric column).  On an
all-missing column the quantiles are NaN, every comparison is False and
the branch is a no-op, matching the `m.isEmpty` guard. -/
def iqrCol (rep nm : String) (c : List Cell) : List Cell × List String :=
  let m := nonNaNums c
  if m.isEmpty then (c, [])
  else
    let cnt := (m.filter (iqrFlag m)).length
    if cnt = 0 then (c, [])
    else
      let repl := if rep = "median" then medianQ m else meanQ m
      (c.map (fun cell =>
        match cell with
        | Cell.num x => if iqrFlag m x then Cell.num repl else cell
        | _ => cell),
       ["Capped " ++ toString cnt ++ " outliers in " ++ nm ++ " to " ++ rep ++
        " (IQR, " ++ fmt2 repl ++ ")"])

/-- Dispatch on `outlier_method`; an unrecognized method matches neither
branch and the column is silently left alone. -/
def outlierColApp (method : String) (t : ℚ) (rep nm : String) (c : List Cell) :
    Except String (List Cell × List String) :=
  if method = "zscore" then zscoreCol t rep nm c
  else if method = "iqr" then Except.ok (iqrCol rep nm c)
  else Except.ok (c, [])

/-- app.py lines 55-70: `for col in df.select_dtypes(include=[np.number]).columns`,
threaded left to right over the column indices. -/
def outlierFold (method : String) (t : ℚ) (rep : String) :
    List ℕ → Table → List String → Except String (Table × List String)
  | [], tab, steps => Except.ok (tab, steps)
  | j :: js, tab, steps =>
    let nm := tab.header.getD j ""
    let c := tab.col j
    if isNumericCol c then
      match outlierColApp method t rep nm c with
      | Except.error e => Except.error e
      | Except.ok p => outlierFold method t rep js (setCol tab j p.1) (steps ++ p.2)
    else outlierFold method t rep js tab steps

def outlierStage (method : String) (t : ℚ) (rep : String) (tab : Table) :
    Except String (Table × List String) :=
  outlierFold method t rep (List.range tab.header.length) tab []

/-- app.py lines 79-104: the strategy dispatch of one missing-value loop
iteration, acting on the threaded table and null-report (the caller has
already established that column `j` has at least one missing value).
An unrecognized strategy matches no branch and changes nothing. -/
def fillBranchApp (strategy rep : String) (tab : Table)
    (m : List (String × String)) (j : ℕ) : Table × List (String × String) :=
  let nm := tab.header.getD j ""
  let c := tab.col j
  let missing := countNa c
  if strategy = "delete" then
    ({ tab with rows := tab.rows.filter (fun r => r.getD j Cell.na ≠ Cell.na) },
     insertRep m nm ("Deleted " ++ toString missing ++ " missing values"))
  else if strategy = "zero_missing" then
    if isNumericCol c then
      (setCol tab j (fillna c (Cell.num 0)),
       insertRep m nm ("Filled " ++ toString missing ++ " missing with 0"))
    else
      (setCol tab j (fillna c (Cell.str "MISSING")),
       insertRep m nm ("Filled " ++ toString missing ++ " missing with \x27MISSING\x27"))
  else if strategy = "mean_or_mode" then
    if isNumericCol c then
      match (if rep = "median" then medianOpt (nonNaNums c) else meanOpt (nonNaNums c)) with
      | some v =>
        (setCol tab j (fillna c (Cell.num v)),
         insertRep m nm ("Filled " ++ toString missing ++ " missing with " ++ rep ++
           " (" ++ fmt2 v ++ ")"))
      | none =>
        (tab,
         insertRep m nm ("Filled " ++ toString missing ++ " missing with " ++ rep ++
           " (nan)"))
    else
      let mv := (modeCell c).getD (Cell.str "Unknown")
      (setCol tab j (fillna c mv),
       insertRep m nm ("Filled " ++ toString missing ++ " missing with mode (" ++
         cellStr mv ++ ")"))
  else if strategy = "forward_fill" then
    (setCol tab j (ffillCol c),
     insertRep m nm ("Forward-filled " ++ toString missing ++ " missing values"))
  else if strategy = "backward_fill" then
    (setCol tab j (bfillCol c),
     insertRep m nm ("Backward-filled " ++ toString missing ++ " missing values"))
  else (tab, m)

/-- app.py lines 74-110: one iteration of the missing-value loop on the
column with index `j` (`continue` when the column has no missing value),
followed by the trailing categorical-"Unknown" fallback of lines
107-110, which is only reached when the column had `missing_count > 0`. -/
def fillStepApp (strategy rep : String) (cats : List String)
    (acc : Table × List (String × String)) (j : ℕ) : Table × List (String × String) :=
  let nm := acc.1.header.getD j ""
  if countNa (acc.1.col j) = 0 then acc
  else
    let step1 := fillBranchApp strategy rep acc.1 acc.2 j
    let rem := countNa (step1.1.col j)
    if nm ∈ cats ∧ 0 < rem then
      (setCol step1.1 j (fillna (step1.1.col j) (Cell.str "Unknown")),
       insertRep step1.2 nm (lookupD step1.2 nm "" ++ "; Filled remaining " ++
         toString rem ++ " missing with \x27Unknown\x27"))
    else step1

def fillCols (strategy rep : String) (cats : List String) :
    List ℕ → Table × List (String × String) → Table × List (String × String)
  | [], acc => acc
  | j :: js, acc => fillCols strategy rep cats js (fillStepApp strategy rep cats acc j)

/-- app.py lines 73-110: the whole missing-value loop. -/
def missingStage (strategy rep : String) (cats : List String) (tab : Table) :
    Table × List (String × String) :=
  fillCols strategy rep cats (List.range tab.header.length) (tab, [])

/-- app.py lines 29-122, `clean_data`.  Type optimization
(`astype("category")` and `convert_dtypes`) changes column dtypes but no
observable cell value, so the table part is the identity. -/
def clean_data (df : Table) (fill_strategy outlier_method : String)
    (outlier_threshold : ℚ) (outlier_replacement : String)
    (categorical_cols : List String) : Except String (Table × Report) :=
  if df.rows.isEmpty || df.header.isEmpty then
    Except.error "The uploaded file is empty!"
  else
    let p1 := diagStage df
    let t2 : Table := { p1.1 with rows := dedupAux [] p1.1.rows }
    let dedupMsg := "Removed " ++ toString (p1.1.rows.length - t2.rows.length) ++
      " duplicate rows"
    let t3 : Table := { t2 with header := t2.header.map normName }
    match outlierStage outlier_method outlier_threshold outlier_replacement t3 with
    | Except.error e => Except.error e
    | Except.ok p4 =>
      let p5 := missingStage fill_strategy outlier_replacement categorical_cols p4.1
      Except.ok (p5.1,
        { steps := p1.2 ++
            [dedupMsg, "Column names cleaned (lowercase, underscores, no special chars)"] ++
            p4.2 ++
            ["Missing values handled: " ++ renderMap p5.2,
             "Data types optimized: " ++ renderDtypes p5.1 categorical_cols],
          missing := p5.2 })

/-- app.py lines 149-191: the sidebar assembles the call. When the
"Apply outlier treatment" checkbox is off, the widgets are not shown and
the else-branch (lines 158-161) passes `outlier_method="zscore"`,
`outlier_replacement="median"`, `outlier_threshold=3.0` to `clean_data`
regardless; `clean_data` itself has no `apply_outliers` parameter. -/
def ui_clean (df : Table) (strategy : String) (apply_outliers : Bool)
    (outlier_method : String) (outlier_threshold : ℚ) (outlier_replacement : String)
    (cats : List String) : Except String (Table × Report) :=
  if apply_outliers then
    clean_data df strategy outlier_method outlier_threshold outlier_replacement cats
  else
    clean_data df strategy "zscore" 3 "median" cats

/-- What the CALLER's DataFrame object holds after `clean_data` returns.
All pipeline stages after `df.drop_duplicates()` operate on the fresh
copy that `drop_duplicates` returns, but the diagnosis standardization
of lines 37-41 runs BEFORE that copy is made and its column assignment
`df["Diagnosis"] = ...` writes into the caller's object in place (the
empty check of lines 34-35 runs first, so an empty table is untouched). -/
def caller_view (df : Table) : Table :=
  if df.rows.isEmpty || df.header.isEmpty then df else (diagStage df).1

end AppClean

namespace CliClean

/-- cleaner.py lines 45-50: replacement value for capped outliers.  The
`else` branch (line 49, commented `# Default to median`) silently maps
every unrecognized `outlier_replacement` to the median. -/
def cliReplacement (rep : String) (m : List ℚ) : ℚ :=
  if rep = "median" then medianQ m
  else if rep = "mean" then meanQ m
  else medianQ m

/-- cleaner.py line 52: the step-log entry interpolates the configured
`outlier_replacement` string verbatim
(`f"Capped {n} outliers in {col} to {outlier_replacement} ({v:.2f})"`). -/
def cliCapMsg (nm : String) (cnt : ℕ) (rep : String) (v : ℚ) : String :=
  "Capped " ++ toString cnt ++ " outliers in " ++ nm ++ " to " ++ rep ++
    " (" ++ fmt2 v ++ ")"

/-- cleaner.py lines 42-52 (z-score treatment of one numeric column);
same broadcast hazard as the app variant when the column mixes missing
values with detected outliers. -/
def cliZscoreCol (t : ℚ) (rep nm : String) (c : List Cell) :
    Except String (List Cell × List String) :=
  let m := nonNaNums c
  let cnt := (m.filter (AppClean.zIsOutlier m t)).length
  if cnt = 0 then Except.ok (c, [])
  else if countNa c > 0 then Except.error "operands could not be broadcast together"
  else
    let repl := cliReplacement rep m
    Except.ok
      (c.map (fun cell =>
        match cell with
        | Cell.num x => if AppClean.zIsOutlier m t x then Cell.num repl else cell
        | _ => cell),
       [cliCapMsg nm cnt rep repl])

def outlierFold (t : ℚ) (rep : String) :
    List ℕ → Table → List String → Except String (Table × List String)
  | [], tab, steps => Except.ok (tab, steps)
  | j :: js, tab, steps =>
    let nm := tab.header.getD j ""
    let c := tab.col j
    if isNumericCol c then
      match cliZscoreCol t rep nm c with
      | Except.error e => Except.error e
      | Except.ok p => outlierFold t rep js (setCol tab j p.1) (steps ++ p.2)
    else outlierFold t rep js tab steps

/-- cleaner.py lines 40-52: the whole outlier block, guarded by
`if apply_outliers:`. -/
def outlierStage (apply_outliers : Bool) (t : ℚ) (rep : String) (tab : Table) :
    Except String (Table × List String) :=
  if apply_outliers then outlierFold t rep (List.range tab.header.length) tab []
  else Except.ok (tab, [])

/-- cleaner.py lines 56-85: one iteration of the missing-value loop.
`mean_or_mode` always fills numeric columns with the MEAN (line 75,
`outlier_replacement` is not consulted) and takes
`df[col].mode().iloc[0]` without an emptiness guard (line 79), which
raises an IndexError on an entirely missing non-numeric column.  Any
unrecognized strategy falls into the final `else` (lines 83-85) and
silently fills with the text `"MISSING"`. -/
def fillStepCli (strategy : String) (acc : Table × List (String × String)) (j : ℕ) :
    Except String (Table × List (String × String)) :=
  let tab := acc.1
  let m := acc.2
  let nm := tab.header.getD j ""
  let c := tab.col j
  let missing := countNa c
  if missing = 0 then Except.ok acc
  else if strategy = "delete" then
    Except.ok
      ({ tab with rows := tab.rows.filter (fun r => r.getD j Cell.na ≠ Cell.na) },
       insertRep m nm ("Deleted " ++ toString missing ++ " missing values"))
  else if strategy = "zero_missing" then
    if isNumericCol c then
      Except.ok (setCol tab j (fillna c (Cell.num 0)),
        insertRep m nm ("Filled " ++ toString missing ++ " missing with 0"))
    else
      Except.ok (setCol tab j (fillna c (Cell.str "MISSING")),
        insertRep m nm ("Filled " ++ toString missing ++ " missing with \x27MISSING\x27"))
  else if strategy = "mean_or_mode" then
    if isNumericCol c then
      match meanOpt (nonNaNums c) with
      | some v =>
        Except.ok (setCol tab j (fillna c (Cell.num v)),
          insertRep m nm ("Filled " ++ toString missing ++ " missing with mean (" ++
            fmt2 v ++ ")"))
      | none =>
        Except.ok (tab,
          insertRep m nm ("Filled " ++ toString missing ++ " missing with mean (nan)"))
    else
      match modeCell c with
      | some mv =>
        Except.ok (setCol tab j (fillna c mv),
          insertRep m nm ("Filled " ++ toString missing ++ " missing with mode (" ++
            cellStr mv ++ ")"))
      | none => Except.error "single positional indexer is out-of-bounds"
  else
    Except.ok (setCol tab j (fillna c (Cell.str "MISSING")),
      insertRep m nm ("Filled " ++ toString missing ++ " missing with \x27MISSING\x27"))

def fillColsCli (strategy : String) :
    List ℕ → Table × List (String × String) →
    Except String (Table × List (String × String))
  | [], acc => Except.ok acc
  | j :: js, acc =>
    match fillStepCli strategy acc j with
    | Except.error e => Except.error e
    | Except.ok acc2 => fillColsCli strategy js acc2

/-- cleaner.py lines 26-93, `clean_data` (no empty-table check, no
diagnosis pass, no categorical fallback; `convert_dtypes` changes no
cell value). -/
def clean_data (df : Table) (fill_strategy : String) (outlier_threshold : ℚ)
    (apply_outliers : Bool) (outlier_replacement : String) :
    Except String (Table × Report) :=
  let t1 : Table := { df with rows := dedupAux [] df.rows }
  let dedupMsg := "Removed " ++ toString (df.rows.length - t1.rows.length) ++
    " duplicate rows"
  let t2 : Table := { t1 with header := t1.header.map normName }
  match outlierStage apply_outliers outlier_threshold outlier_replacement t2 with
  | Except.error e => Except.error e
  | Except.ok p3 =>
    match fillColsCli fill_strategy (List.range p3.1.header.length) (p3.1, []) with
    | Except.error e => Except.error e
    | Except.ok p4 =>
      Except.ok (p4.1,
        { steps :=
            [dedupMsg, "Column names cleaned (lowercase, underscores, no special chars)"] ++
            p3.2 ++
            ["Missing values handled: " ++ renderMap p4.2,
             "Data types optimized: " ++ renderDtypes p4.1 []],
          missing := p4.2 })

end CliClean

/-- Claim-side (spec-worded) description of the `MeanOrMode` treatment of
one column in app.py: a numeric column with at least one non-missing
value is filled with its median or mean according to `outlier_replacement`
(an entirely missing numeric column is left as is); a non-numeric column
is filled with its most frequent value, or with the text `"Unknown"` when
it has no non-missing value at all. -/
def specMeanModeFill (rep : String) (c : List Cell) : List Cell :=
  if isNumericCol c then
    match (if rep = "median" then medianOpt (nonNaNums c) else meanOpt (nonNaNums c)) with
    | some v => fillna c (Cell.num v)
    | none => c
  else if (nonNaCells c).isEmpty then fillna c (Cell.str "Unknown")
  else fillna c ((modeCell c).getD (Cell.str "Unknown"))

/-! ### Concrete tables used by the counterexample and witness theorems -/

/-- A one-column table with a string value and a missing value. -/
def tblStrNa : Table := ⟨["a"], [[Cell.str "x"], [Cell.na]]⟩

/-- A numeric column `[1, 2, 10, missing]`: its median is 2 and its mean
is 13/3, so the two fill policies disagree on it. -/
def tblNumNa : Table := ⟨["a"], [[Cell.num 1], [Cell.num 2], [Cell.num 10], [Cell.na]]⟩

/-- Eleven distinct rows whose column `v` is ten zeros and one 100: the
value 100 has |z-score| ≈ 3.16 > 3, so the default threshold 3 flags it;
column `id` has no outliers. -/
def tblOutlier : Table := ⟨["v", "id"],
  [[Cell.num 0, Cell.num 1], [Cell.num 0, Cell.num 2], [Cell.num 0, Cell.num 3],
   [Cell.num 0, Cell.num 4], [Cell.num 0, Cell.num 5], [Cell.num 0, Cell.num 6],
   [Cell.num 0, Cell.num 7], [Cell.num 0, Cell.num 8], [Cell.num 0, Cell.num 9],
   [Cell.num 0, Cell.num 10], [Cell.num 100, Cell.num 11]]⟩

/-- A `"Diagnosis"` column holding `"High BP"`, which differs from the
mapped variant `"high BP"` only by letter case. -/
def tblHighBP : Table := ⟨["Diagnosis"], [[Cell.str "High BP"]]⟩

/-- A `"Diagnosis"` column holding the mapped variant `"hypertension"`. -/
def tblHyp : Table := ⟨["Diagnosis"], [[Cell.str "hypertension"]]⟩

/-- Two identical rows and no missing values. -/
def tblDup : Table := ⟨["a"], [[Cell.num 1], [Cell.num 1]]⟩

/-- Two distinct numeric rows, no missing values, no outliers. -/
def tblPlain : Table := ⟨["a"], [[Cell.num 1], [Cell.num 2]]⟩

/-- Column `a` has a missing value, column `b` has none. -/
def tblOneNa : Table := ⟨["a", "b"], [[Cell.na, Cell.num 1], [Cell.num 1, Cell.num 2]]⟩

/-! ### Helper lemmas -/

theorem getD_set_self {α : Type} :
    ∀ (l : List α) (j : ℕ) (a d : α), j < l.length → (l.set j a).getD j d = a
  | [], _, _, _, h => absurd h (by simp)
  | _ :: _, 0, _, _, _ => rfl
  | _ :: xs, j + 1, a, d, h => getD_set_self xs j a d (by simpa using h)

theorem getD_set_ne {α : Type} :
    ∀ (l : List α) (i j : ℕ) (a d : α), i ≠ j → (l.set j a).getD i d = l.getD i d
  | [], _, _, _, _, _ => rfl
  | _ :: _, 0, 0, _, _, hij => absurd rfl hij
  | _ :: _, 0, _ + 1, _, _, _ => rfl
  | _ :: _, _ + 1, 0, _, _, _ => rfl
  | _ :: xs, i + 1, j + 1, a, d, hij => getD_set_ne xs i j a d (by omega)

theorem setCol_header (t : Table) (j : ℕ) (v : List Cell) :
    (setCol t j v).header = t.header := rfl

theorem setCol_rows_length (t : Table) (j : ℕ) (v : List Cell)
    (hv : v.length = t.rows.length) : (setCol t j v).rows.length = t.rows.length := by
  simp [setCol, hv]

theorem length_col (t : Table) (j : ℕ) : (t.col j).length = t.rows.length := by
  simp [Table.col]

theorem zipWith_set_map_getD_ne :
    ∀ (rs : List (List Cell)) (v : List Cell) (i j : ℕ), i ≠ j →
      (List.zipWith (fun r c => r.set j c) rs v).map (fun r => r.getD i Cell.na) =
        (rs.take v.length).map (fun r => r.getD i Cell.na)
  | [], _, _, _, _ => by simp
  | _ :: _, [], _, _, _ => by simp
  | r :: rs, c :: v, i, j, hij => by
    simp only [List.zipWith, List.map, List.take, getD_set_ne r i j c Cell.na hij]
    rw [zipWith_set_map_getD_ne rs v i j hij]

theorem col_setCol_ne (t : Table) (j : ℕ) (v : List Cell) (i : ℕ)
    (hv : v.length = t.rows.length) (hij : i ≠ j) : (setCol t j v).col i = t.col i := by
  show (List.zipWith (fun r c => r.set j c) t.rows v).map (fun r => r.getD i Cell.na) = _
  rw [zipWith_set_map_getD_ne t.rows v i j hij, hv, List.take_length]
  rfl

theorem zipWith_set_map_getD_self :
    ∀ (rs : List (List Cell)) (v : List Cell) (j : ℕ), v.length = rs.length →
      (∀ r ∈ rs, j < r.length) →
      (List.zipWith (fun r c => r.set j c) rs v).map (fun r => r.getD j Cell.na) = v
  | [], [], _, _, _ => rfl
  | r :: rs, c :: v, j, hv, hr => by
    simp only [List.zipWith, List.map]
    rw [getD_set_self r j c Cell.na (hr r (by simp))]
    rw [zipWith_set_map_getD_self rs v j (by simpa using hv) (fun r2 h2 => hr r2 (by simp [h2]))]

theorem col_setCol_self (t : Table) (j : ℕ) (v : List Cell)
    (hv : v.length = t.rows.length) (hr : ∀ r ∈ t.rows, j < r.length) :
    (setCol t j v).col j = v := by
  show (List.zipWith (fun r c => r.set j c) t.rows v).map (fun r => r.getD j Cell.na) = v
  exact zipWith_set_map_getD_self t.rows v j (hv.trans rfl) hr

theorem length_fillna (c : List Cell) (v : Cell) : (fillna c v).length = c.length := by
  simp [fillna]

theorem length_ffillGo : ∀ (o : Option Cell) (c : List Cell), (ffillGo o c).length = c.length
  | _, [] => rfl
  | o, Cell.na :: cs => by simp [ffillGo, length_ffillGo o cs]
  | _, Cell.num q :: cs => by simp [ffillGo, length_ffillGo (some (Cell.num q)) cs]
  | _, Cell.str s :: cs => by simp [ffillGo, length_ffillGo (some (Cell.str s)) cs]

theorem length_ffillCol (c : List Cell) : (ffillCol c).length = c.length := by
  simp [ffillCol, length_ffillGo]

theorem length_bfillCol (c : List Cell) : (bfillCol c).length = c.length := by
  simp [bfillCol, length_ffillGo]

theorem countNa_le_of_sublist {c1 c2 : List Cell} (h : List.Sublist c1 c2) :
    countNa c1 ≤ countNa c2 :=
  (h.filter (· = Cell.na)).length_le

theorem countNa_cons (x : Cell) (c : List Cell) :
    countNa (x :: c) = (if x = Cell.na then 1 else 0) + countNa c := by
  by_cases h : x = Cell.na <;> simp [countNa, List.filter, h] <;> omega

theorem countNa_fillna_le (c : List Cell) (v : Cell) : countNa (fillna c v) ≤ countNa c := by
  induction c with
  | nil => simp [fillna, countNa]
  | cons x cs ih =>
    by_cases h : x = Cell.na
    · have hx : fillna (x :: cs) v = v :: fillna cs v := by simp [fillna, h]
      rw [hx, countNa_cons, countNa_cons, h]
      by_cases hv : v = Cell.na
      · subst hv
        simp only [if_pos rfl]
        omega
      · simp [hv]
        omega
    · have hx : fillna (x :: cs) v = x :: fillna cs v := by simp [fillna, h]
      rw [hx, countNa_cons, countNa_cons]
      omega

theorem countNa_reverse (c : List Cell) : countNa c.reverse = countNa c := by
  simp [countNa, List.filter_reverse]

theorem countNa_ffillGo_le :
    ∀ (o : Option Cell), (∀ y, o = some y → y ≠ Cell.na) →
      ∀ (c : List Cell), countNa (ffillGo o c) ≤ countNa c
  | _, _, [] => le_refl _
  | o, ho, Cell.na :: cs => by
    rw [ffillGo, countNa_cons, countNa_cons, if_pos rfl]
    have h2 := countNa_ffillGo_le o ho cs
    have h1 : (if o.getD Cell.na = Cell.na then 1 else 0) ≤ 1 := by split <;> omega
    omega
  | o, _, Cell.num q :: cs => by
    rw [ffillGo, countNa_cons, countNa_cons]
    have h2 := countNa_ffillGo_le (some (Cell.num q)) (by intro y hy; cases hy; simp) cs
    simp only [reduceCtorEq, if_false]
    omega
  | o, _, Cell.str s :: cs => by
    rw [ffillGo, countNa_cons, countNa_cons]
    have h2 := countNa_ffillGo_le (some (Cell.str s)) (by intro y hy; cases hy; simp) cs
    simp only [reduceCtorEq, if_false]
    omega

theorem countNa_ffillCol_le (c : List Cell) : countNa (ffillCol c) ≤ countNa c :=
  countNa_ffillGo_le none (by intro y hy; cases hy) c

theorem countNa_bfillCol_le (c : List Cell) : countNa (bfillCol c) ≤ countNa c := by
  have h := countNa_ffillGo_le none (by intro y hy; cases hy) c.reverse
  calc countNa (bfillCol c) = countNa (ffillGo none c.reverse) := countNa_reverse _
    _ ≤ countNa c.reverse := h
    _ = countNa c := countNa_reverse c

theorem dedupAux_length_le (seen : List (List Cell)) :
    ∀ (rs : List (List Cell)), (dedupAux seen rs).length ≤ rs.length := by
  intro rs
  induction rs generalizing seen with
  | nil => simp [dedupAux]
  | cons r rs ih =>
    rw [dedupAux]
    split
    · exact (ih seen).trans (by simp)
    · simpa using ih (r :: seen)

theorem mem_keys_insertRep (m : List (String × String)) (k v x : String)
    (h : x ∈ (insertRep m k v).map Prod.fst) : x ∈ m.map Prod.fst ∨ x = k := by
  induction m with
  | nil =>
    simp only [insertRep, List.map_cons, List.map_nil, List.mem_cons,
      List.not_mem_nil, or_false] at h
    exact Or.inr h
  | cons p rest ih =>
    obtain ⟨k2, v2⟩ := p
    rw [insertRep] at h
    split at h
    · rw [List.map_cons] at h ⊢
      exact Or.inl h
    · rw [List.map_cons, List.mem_cons] at h
      rcases h with h | h
      · exact Or.inl (by rw [List.map_cons, List.mem_cons]; exact Or.inl h)
      · rcases ih h with h2 | h2
        · exact Or.inl (by rw [List.map_cons, List.mem_cons]; exact Or.inr h2)
        · exact Or.inr h2

/-- `diagStage` is the identity when neither diagnosis column name occurs. -/
theorem diagStage_none (t : Table) (h1 : "Diagnosis" ∉ t.header)
    (h2 : "diagnosis" ∉ t.header) : AppClean.diagStage t = (t, []) := by
  unfold AppClean.diagStage
  rw [if_neg h1, if_neg h2]

theorem outlierColApp_iqr (t : ℚ) (rep nm : String) (c : List Cell) :
    AppClean.outlierColApp "iqr" t rep nm c = Except.ok (AppClean.iqrCol rep nm c) := by
  unfold AppClean.outlierColApp
  rw [if_neg (by decide), if_pos rfl]

theorem outlierFold_iqr_threshold (t1 t2 : ℚ) (rep : String) :
    ∀ (js : List ℕ) (tab : Table) (steps : List String),
      AppClean.outlierFold "iqr" t1 rep js tab steps =
        AppClean.outlierFold "iqr" t2 rep js tab steps
  | [], _, _ => rfl
  | j :: js, tab, steps => by
    simp only [AppClean.outlierFold]
    rw [outlierColApp_iqr, outlierColApp_iqr]
    split
    · exact outlierFold_iqr_threshold t1 t2 rep js _ _
    · exact outlierFold_iqr_threshold t1 t2 rep js _ _

theorem outlierStage_iqr_threshold (t1 t2 : ℚ) (rep : String) (tab : Table) :
    AppClean.outlierStage "iqr" t1 rep tab = AppClean.outlierStage "iqr" t2 rep tab :=
  outlierFold_iqr_threshold t1 t2 rep _ tab []

theorem diagStage_rows_length (t : Table) :
    (AppClean.diagStage t).1.rows.length = t.rows.length := by
  unfold AppClean.diagStage
  split
  · simp [setCol, Table.col]
  · split
    · simp [addCol, Table.col]
    · rfl

theorem outlierColApp_ok_length (method : String) (t : ℚ) (rep nm : String)
    (c : List Cell) (p : List Cell × List String)
    (h : AppClean.outlierColApp method t rep nm c = Except.ok p) : p.1.length = c.length := by
  simp only [AppClean.outlierColApp, AppClean.zscoreCol, AppClean.iqrCol] at h
  repeat' split at h
  all_goals try exact Except.noConfusion h
  all_goals simp only [Except.ok.injEq] at h
  all_goals subst h
  all_goals simp

theorem outlierFold_rows_length (method : String) (t : ℚ) (rep : String) :
    ∀ (js : List ℕ) (tab : Table) (steps : List String) (p : Table × List String),
      AppClean.outlierFold method t rep js tab steps = Except.ok p →
      p.1.rows.length = tab.rows.length ∧ p.1.header = tab.header
  | [], tab, steps, p, h => by
    simp only [AppClean.outlierFold, Except.ok.injEq] at h
    subst h
    exact ⟨rfl, rfl⟩
  | j :: js, tab, steps, p, h => by
    simp only [AppClean.outlierFold] at h
    split at h
    · split at h
      · exact absurd h (by simp)
      · rename_i q heq
        have hl := outlierColApp_ok_length method t rep _ _ q heq
        have ih := outlierFold_rows_length method t rep js _ _ p h
        refine ⟨?_, ih.2⟩
        rw [ih.1, setCol_rows_length]
        rw [hl, length_col]
    · exact outlierFold_rows_length method t rep js _ _ p h

theorem fillBranchApp_rows_le (s rep : String) (tab : Table)
    (m : List (String × String)) (j : ℕ) :
    (AppClean.fillBranchApp s rep tab m j).1.rows.length ≤ tab.rows.length := by
  simp only [AppClean.fillBranchApp]
  repeat' split
  all_goals
    simp [setCol, Table.col, fillna, length_ffillCol, length_bfillCol,
      List.length_zipWith]
  all_goals exact List.length_filter_le _ _

theorem fillBranchApp_rows_eq (s rep : String) (tab : Table)
    (m : List (String × String)) (j : ℕ) (hs : s ≠ "delete") :
    (AppClean.fillBranchApp s rep tab m j).1.rows.length = tab.rows.length := by
  simp only [AppClean.fillBranchApp]
  rw [if_neg hs]
  repeat' split
  all_goals
    simp [setCol, Table.col, fillna, length_ffillCol, length_bfillCol,
      List.length_zipWith]

theorem fillStepApp_rows_le (s rep : String) (cats : List String)
    (acc : Table × List (String × String)) (j : ℕ) :
    (AppClean.fillStepApp s rep cats acc j).1.rows.length ≤ acc.1.rows.length := by
  simp only [AppClean.fillStepApp]
  split
  · exact le_refl _
  · split
    · rw [setCol_rows_length _ _ _ (by rw [length_fillna, length_col])]
      exact fillBranchApp_rows_le s rep acc.1 acc.2 j
    · exact fillBranchApp_rows_le s rep acc.1 acc.2 j

theorem fillStepApp_rows_eq (s rep : String) (cats : List String)
    (acc : Table × List (String × String)) (j : ℕ) (hs : s ≠ "delete") :
    (AppClean.fillStepApp s rep cats acc j).1.rows.length = acc.1.rows.length := by
  simp only [AppClean.fillStepApp]
  split
  · rfl
  · split
    · rw [setCol_rows_length _ _ _ (by rw [length_fillna, length_col])]
      exact fillBranchApp_rows_eq s rep acc.1 acc.2 j hs
    · exact fillBranchApp_rows_eq s rep acc.1 acc.2 j hs

theorem fillCols_rows_le (s rep : String) (cats : List String) :
    ∀ (js : List ℕ) (acc : Table × List (String × String)),
      (AppClean.fillCols s rep cats js acc).1.rows.length ≤ acc.1.rows.length
  | [], _ => le_refl _
  | j :: js, acc => by
    rw [AppClean.fillCols]
    exact (fillCols_rows_le s rep cats js _).trans (fillStepApp_rows_le s rep cats acc j)

theorem fillCols_rows_eq (s rep : String) (cats : List String) (hs : s ≠ "delete") :
    ∀ (js : List ℕ) (acc : Table × List (String × String)),
      (AppClean.fillCols s rep cats js acc).1.rows.length = acc.1.rows.length
  | [], _ => rfl
  | j :: js, acc => by
    rw [AppClean.fillCols]
    exact (fillCols_rows_eq s rep cats hs js _).trans (fillStepApp_rows_eq s rep cats acc j hs)

/-- `naImp a b`: cell `a` is missing only where cell `b` is (the
relation between a filled column and the column before filling). -/
def naImp : Cell → Cell → Prop := fun a b => a = Cell.na → b = Cell.na

theorem forall2_naImp_fillna (c : List Cell) (v : Cell) :
    List.Forall₂ naImp (fillna c v) c := by
  induction c with
  | nil => exact List.Forall₂.nil
  | cons x cs ih =>
    refine List.Forall₂.cons ?_ ih
    intro hna
    by_cases hx : x = Cell.na
    · exact hx
    · simp only [fillna] at hna
      rw [if_neg hx] at hna
      exact hna

theorem forall2_naImp_ffillGo :
    ∀ (o : Option Cell) (c : List Cell), List.Forall₂ naImp (ffillGo o c) c
  | _, [] => List.Forall₂.nil
  | o, Cell.na :: cs =>
    List.Forall₂.cons (fun _ => rfl) (forall2_naImp_ffillGo o cs)
  | o, Cell.num q :: cs =>
    List.Forall₂.cons (fun h => Cell.noConfusion h) (forall2_naImp_ffillGo _ cs)
  | o, Cell.str s :: cs =>
    List.Forall₂.cons (fun h => Cell.noConfusion h) (forall2_naImp_ffillGo _ cs)

theorem forall2_naImp_ffillCol (c : List Cell) : List.Forall₂ naImp (ffillCol c) c :=
  forall2_naImp_ffillGo none c

theorem forall2_naImp_bfillCol (c : List Cell) : List.Forall₂ naImp (bfillCol c) c := by
  have h := List.rel_reverse (forall2_naImp_ffillGo none c.reverse)
  rw [List.reverse_reverse] at h
  exact h

/-- Setting column `j` to a fill `v` that is missing only where the old
column was missing cannot increase the missing count of column `j`
(rows too short for `j` read as `na` on both sides). -/
theorem countNa_zipSet_le (j : ℕ) :
    ∀ (rs : List (List Cell)) (v : List Cell), v.length = rs.length →
      List.Forall₂ naImp v (rs.map (fun r => r.getD j Cell.na)) →
      countNa ((List.zipWith (fun r c => r.set j c) rs v).map (fun r => r.getD j Cell.na)) ≤
        countNa (rs.map (fun r => r.getD j Cell.na))
  | [], [], _, _ => le_refl _
  | [], _ :: _, hv, _ => absurd hv (by simp)
  | _ :: _, [], hv, _ => absurd hv (by simp)
  | r :: rs, c :: v, hv, hf => by
    simp only [List.map_cons] at hf
    have hR : naImp c (r.getD j Cell.na) := (List.forall₂_cons.1 hf).1
    have htail := countNa_zipSet_le j rs v (by simpa using hv) (List.forall₂_cons.1 hf).2
    simp only [List.zipWith, List.map_cons]
    rw [countNa_cons, countNa_cons]
    by_cases hj : j < r.length
    · rw [getD_set_self r j c Cell.na hj]
      by_cases hc : c = Cell.na
      · rw [hR hc, hc]
        simp only [if_pos rfl]
        omega
      · rw [if_neg hc]
        have : (if r.getD j Cell.na = Cell.na then 1 else 0) + countNa (rs.map
            (fun r => r.getD j Cell.na)) ≥ countNa (rs.map (fun r => r.getD j Cell.na)) := by
          split <;> omega
        omega
    · rw [List.set_eq_of_length_le (by omega)]
      omega

theorem countNa_col_setCol_le (tab : Table) (j i : ℕ) (v : List Cell)
    (hv : v.length = tab.rows.length) (hf : List.Forall₂ naImp v (tab.col j)) :
    countNa ((setCol tab j v).col i) ≤ countNa (tab.col i) := by
  by_cases hij : i = j
  · subst hij
    exact countNa_zipSet_le i tab.rows v hv hf
  · rw [col_setCol_ne tab j v i hv hij]

theorem fillBranchApp_header (s rep : String) (tab : Table)
    (m : List (String × String)) (j : ℕ) :
    (AppClean.fillBranchApp s rep tab m j).1.header = tab.header := by
  simp only [AppClean.fillBranchApp]
  repeat' split
  all_goals rfl

theorem fillStepApp_header (s rep : String) (cats : List String)
    (acc : Table × List (String × String)) (j : ℕ) :
    (AppClean.fillStepApp s rep cats acc j).1.header = acc.1.header := by
  simp only [AppClean.fillStepApp]
  split
  · rfl
  · split
    · rw [setCol_header, fillBranchApp_header]
    · rw [fillBranchApp_header]

theorem fillBranchApp_countNa_le (s rep : String) (tab : Table)
    (m : List (String × String)) (j i : ℕ) :
    countNa ((AppClean.fillBranchApp s rep tab m j).1.col i) ≤ countNa (tab.col i) := by
  simp only [AppClean.fillBranchApp]
  repeat' split
  all_goals
    first
      | exact le_refl _
      | exact countNa_le_of_sublist ((List.filter_sublist _).map _)
      | exact countNa_col_setCol_le tab j i _ (by rw [length_fillna, length_col])
          (forall2_naImp_fillna _ _)
      | exact countNa_col_setCol_le tab j i _ (by rw [length_ffillCol, length_col])
          (forall2_naImp_ffillCol _)
      | exact countNa_col_setCol_le tab j i _ (by rw [length_bfillCol, length_col])
          (forall2_naImp_bfillCol _)

theorem fillStepApp_countNa_le (s rep : String) (cats : List String)
    (acc : Table × List (String × String)) (j i : ℕ) :
    countNa ((AppClean.fillStepApp s rep cats acc j).1.col i) ≤ countNa (acc.1.col i) := by
  simp only [AppClean.fillStepApp]
  split
  · exact le_refl _
  · split
    · refine le_trans ?_ (fillBranchApp_countNa_le s rep acc.1 acc.2 j i)
      exact countNa_col_setCol_le _ j i _ (by rw [length_fillna, length_col])
        (forall2_naImp_fillna _ _)
    · exact fillBranchApp_countNa_le s rep acc.1 acc.2 j i

theorem fillBranchApp_keys (s rep : String) (tab : Table)
    (m : List (String × String)) (j : ℕ) (x : String)
    (h : x ∈ (AppClean.fillBranchApp s rep tab m j).2.map Prod.fst) :
    x ∈ m.map Prod.fst ∨ x = tab.header.getD j "" := by
  simp only [AppClean.fillBranchApp] at h
  repeat' split at h
  all_goals
    first
      | exact Or.inl h
      | exact mem_keys_insertRep m _ _ x h

theorem fillStepApp_keys (s rep : String) (cats : List String)
    (acc : Table × List (String × String)) (j : ℕ) (x : String)
    (h : x ∈ (AppClean.fillStepApp s rep cats acc j).2.map Prod.fst) :
    x ∈ acc.2.map Prod.fst ∨
      (x = acc.1.header.getD j "" ∧ 0 < countNa (acc.1.col j)) := by
  simp only [AppClean.fillStepApp] at h
  split at h
  · exact Or.inl h
  · rename_i hmiss
    split at h
    · rcases mem_keys_insertRep _ _ _ x h with h2 | h2
      · rcases fillBranchApp_keys s rep acc.1 acc.2 j x h2 with h3 | h3
        · exact Or.inl h3
        · exact Or.inr ⟨h3, by omega⟩
      · exact Or.inr ⟨h2, by omega⟩
    · rcases fillBranchApp_keys s rep acc.1 acc.2 j x h with h3 | h3
      · exact Or.inl h3
      · exact Or.inr ⟨h3, by omega⟩

theorem fillCols_keys (s rep : String) (cats : List String) (tab0 : Table) :
    ∀ (js : List ℕ) (acc : Table × List (String × String)),
      acc.1.header = tab0.header →
      (∀ i, countNa (acc.1.col i) ≤ countNa (tab0.col i)) →
      ∀ x ∈ (AppClean.fillCols s rep cats js acc).2.map Prod.fst,
        x ∈ acc.2.map Prod.fst ∨
          ∃ j ∈ js, x = tab0.header.getD j "" ∧ 0 < countNa (tab0.col j)
  | [], _, _, _, _, hx => Or.inl hx
  | j :: js, acc, hh, hc, x, hx => by
    rw [AppClean.fillCols] at hx
    have hh2 : (AppClean.fillStepApp s rep cats acc j).1.header = tab0.header := by
      rw [fillStepApp_header, hh]
    have hc2 : ∀ i, countNa ((AppClean.fillStepApp s rep cats acc j).1.col i) ≤
        countNa (tab0.col i) :=
      fun i => (fillStepApp_countNa_le s rep cats acc j i).trans (hc i)
    rcases fillCols_keys s rep cats tab0 js _ hh2 hc2 x hx with h2 | h2
    · rcases fillStepApp_keys s rep cats acc j x h2 with h3 | h3
      · exact Or.inl h3
      · refine Or.inr ⟨j, by simp, ?_, ?_⟩
        · rw [h3.1, hh]
        · exact lt_of_lt_of_le h3.2 (hc j)
    · obtain ⟨j2, hj2, hx2⟩ := h2
      exact Or.inr ⟨j2, by simp [hj2], hx2⟩

theorem fillna_of_countNa_zero : ∀ (c : List Cell) (v : Cell), countNa c = 0 → fillna c v = c
  | [], _, _ => rfl
  | x :: cs, v, h => by
    rw [countNa_cons] at h
    by_cases hx : x = Cell.na
    · rw [if_pos hx] at h
      exact absurd h (by omega)
    · rw [if_neg hx] at h
      simp only [fillna, List.map_cons, if_neg hx]
      have hcs := fillna_of_countNa_zero cs v (by omega)
      simp only [fillna] at hcs
      rw [hcs]

theorem modeCell_of_empty (c : List Cell) (h : (nonNaCells c).isEmpty = true) :
    modeCell c = none := by
  simp only [modeCell]
  rw [List.isEmpty_iff.1 h]
  rfl

theorem specMeanModeFill_of_countNa_zero (rep : String) (c : List Cell)
    (h : countNa c = 0) : specMeanModeFill rep c = c := by
  simp only [specMeanModeFill]
  split
  · split
    · exact fillna_of_countNa_zero c _ h
    · rfl
  · split
    · exact fillna_of_countNa_zero c _ h
    · exact fillna_of_countNa_zero c _ h

theorem mem_zipWith_set (j : ℕ) :
    ∀ (rs : List (List Cell)) (v : List Cell) (r : List Cell),
      r ∈ List.zipWith (fun r c => r.set j c) rs v → ∃ r0 ∈ rs, ∃ c, r = r0.set j c
  | [], _, _, h => absurd h (by simp)
  | _ :: _, [], _, h => absurd h (by simp)
  | r0 :: rs, c :: v, r, h => by
    rcases List.mem_cons.1 h with he | hm
    · exact ⟨r0, by simp, c, he⟩
    · obtain ⟨r1, hr1, c1, he1⟩ := mem_zipWith_set j rs v r hm
      exact ⟨r1, by simp [hr1], c1, he1⟩

theorem WF_setCol (t : Table) (j : ℕ) (v : List Cell) (h : t.WF) : (setCol t j v).WF := by
  intro r hr
  obtain ⟨r0, hr0, c, he⟩ := mem_zipWith_set j t.rows v r hr
  rw [he]
  simp only [List.length_set, setCol_header]
  exact h r0 hr0

theorem fillBranchApp_mm_WF (rep : String) (tab : Table) (m : List (String × String))
    (j : ℕ) (hWF : tab.WF) : (AppClean.fillBranchApp "mean_or_mode" rep tab m j).1.WF := by
  simp only [AppClean.fillBranchApp]
  rw [if_neg (by decide : ¬("mean_or_mode" = "delete")),
      if_neg (by decide : ¬("mean_or_mode" = "zero_missing")),
      if_pos (by trivial)]
  split
  · split
    · exact WF_setCol _ _ _ hWF
    · exact hWF
  · exact WF_setCol _ _ _ hWF

theorem fillStepApp_mm_WF (rep : String) (cats : List String)
    (acc : Table × List (String × String)) (j : ℕ) (hWF : acc.1.WF) :
    (AppClean.fillStepApp "mean_or_mode" rep cats acc j).1.WF := by
  simp only [AppClean.fillStepApp]
  split
  · exact hWF
  · split
    · exact WF_setCol _ _ _ (fillBranchApp_mm_WF rep acc.1 acc.2 j hWF)
    · exact fillBranchApp_mm_WF rep acc.1 acc.2 j hWF

theorem fillBranchApp_mm_col_ne (rep : String) (tab : Table)
    (m : List (String × String)) (k j : ℕ) (hkj : j ≠ k) :
    (AppClean.fillBranchApp "mean_or_mode" rep tab m k).1.col j = tab.col j := by
  simp only [AppClean.fillBranchApp]
  rw [if_neg (by decide : ¬("mean_or_mode" = "delete")),
      if_neg (by decide : ¬("mean_or_mode" = "zero_missing")),
      if_pos (by trivial)]
  split
  · split
    · exact col_setCol_ne tab k _ j (by rw [length_fillna, length_col]) hkj
    · rfl
  · exact col_setCol_ne tab k _ j (by rw [length_fillna, length_col]) hkj

theorem fillStepApp_mm_col_ne (rep : String) (cats : List String)
    (acc : Table × List (String × String)) (k j : ℕ) (hkj : j ≠ k) :
    (AppClean.fillStepApp "mean_or_mode" rep cats acc k).1.col j = acc.1.col j := by
  simp only [AppClean.fillStepApp]
  split
  · rfl
  · split
    · rw [col_setCol_ne _ k _ j (by rw [length_fillna, length_col]) hkj]
      exact fillBranchApp_mm_col_ne rep acc.1 acc.2 k j hkj
    · exact fillBranchApp_mm_col_ne rep acc.1 acc.2 k j hkj

theorem fillBranchApp_mm_col_self (rep : String) (tab : Table)
    (m : List (String × String)) (j : ℕ) (hWF : tab.WF) (hj : j < tab.header.length) :
    (AppClean.fillBranchApp "mean_or_mode" rep tab m j).1.col j =
      specMeanModeFill rep (tab.col j) := by
  have hr : ∀ r ∈ tab.rows, j < r.length := fun r hrr => by rw [hWF r hrr]; exact hj
  simp only [AppClean.fillBranchApp, specMeanModeFill]
  rw [if_neg (by decide : ¬("mean_or_mode" = "delete")),
      if_neg (by decide : ¬("mean_or_mode" = "zero_missing")),
      if_pos (by trivial)]
  by_cases hnum : isNumericCol (tab.col j) = true
  · rw [if_pos hnum, if_pos hnum]
    cases hv : (if rep = "median" then medianOpt (nonNaNums (tab.col j))
        else meanOpt (nonNaNums (tab.col j))) with
    | some v =>
      exact col_setCol_self tab j (fillna (tab.col j) (Cell.num v))
        (by rw [length_fillna, length_col]) hr
    | none => rfl
  · rw [if_neg hnum, if_neg hnum]
    rw [col_setCol_self tab j
      (fillna (tab.col j) ((modeCell (tab.col j)).getD (Cell.str "Unknown")))
      (by rw [length_fillna, length_col]) hr]
    by_cases hemp : (nonNaCells (tab.col j)).isEmpty = true
    · rw [if_pos hemp, modeCell_of_empty _ hemp]
      rfl
    · rw [if_neg hemp]

theorem fillStepApp_mm_col_self (rep : String)
    (acc : Table × List (String × String)) (j : ℕ) (hWF : acc.1.WF)
    (hj : j < acc.1.header.length) :
    (AppClean.fillStepApp "mean_or_mode" rep [] acc j).1.col j =
      specMeanModeFill rep (acc.1.col j) := by
  simp only [AppClean.fillStepApp]
  split
  · rename_i h0
    exact (specMeanModeFill_of_countNa_zero rep _ h0).symm
  · rw [if_neg (by simp)]
    exact fillBranchApp_mm_col_self rep acc.1 acc.2 j hWF hj

theorem fillCols_mm_col (rep : String) :
    ∀ (js : List ℕ) (acc : Table × List (String × String)) (j : ℕ),
      js.Nodup → acc.1.WF → j < acc.1.header.length →
      (j ∈ js →
        (AppClean.fillCols "mean_or_mode" rep [] js acc).1.col j =
          specMeanModeFill rep (acc.1.col j)) ∧
      (j ∉ js →
        (AppClean.fillCols "mean_or_mode" rep [] js acc).1.col j = acc.1.col j)
  | [], acc, j, _, _, _ => ⟨fun h => absurd h (List.not_mem_nil j), fun _ => rfl⟩
  | k :: js, acc, j, hnd, hWF, hj => by
    rw [AppClean.fillCols]
    have hWF2 := fillStepApp_mm_WF rep [] acc k hWF
    have hj2 : j < (AppClean.fillStepApp "mean_or_mode" rep [] acc k).1.header.length := by
      rw [fillStepApp_header]
      exact hj
    have ih := fillCols_mm_col rep js (AppClean.fillStepApp "mean_or_mode" rep [] acc k) j
      (List.nodup_cons.1 hnd).2 hWF2 hj2
    constructor
    · intro hmem
      rcases List.mem_cons.1 hmem with he | hm
      · subst he
        have hnotin : j ∉ js := (List.nodup_cons.1 hnd).1
        rw [ih.2 hnotin]
        exact fillStepApp_mm_col_self rep acc j hWF hj
      · have hkj : j ≠ k := by
          rintro rfl
          exact (List.nodup_cons.1 hnd).1 hm
        rw [ih.1 hm, fillStepApp_mm_col_ne rep [] acc k j hkj]
    · intro hnm
      have hkj : j ≠ k := fun he => hnm (List.mem_cons.2 (Or.inl he))
      rw [ih.2 (fun hm => hnm (List.mem_cons.2 (Or.inr hm)))]
      exact fillStepApp_mm_col_ne rep [] acc k j hkj

/-! ### Claim theorems -/

/-- C3 amended: in cleaner.py `apply_outliers = false` does skip the
outlier stage entirely — the stage returns the table unchanged with no
step entries, and the whole run is independent of `outlier_threshold`
and `outlier_replacement` (which only the outlier stage consumes); the
counterexample shows app.py's variant has no such switch and still caps
outliers when the UI checkbox is off. -/
theorem C3_amended (df : Table) (fs : String) (t t' : ℚ) (rep rep' : String) (tab : Table) :
    CliClean.clean_data df fs t false rep = CliClean.clean_data df fs t' false rep' ∧
    CliClean.outlierStage false t rep tab = Except.ok (tab, []) := by
  exact ⟨rfl, rfl⟩

/-- C6: under the IQR method the outlier flag on a numeric column is
exactly `x < Q1 - 1.5*IQR ∨ x > Q3 + 1.5*IQR` (quartiles by pandas
linear interpolation, multiplier the literal 3/2), and the whole
`clean_data` run with `outlier_method = "iqr"` gives identical results
for any two `outlier_threshold` values — the threshold is consumed only
by the z-score branch. -/
theorem C6_iqr_fixed_multiplier (df : Table) (fs : String) (t1 t2 : ℚ) (rep : String)
    (cats : List String) (m : List ℚ) (x : ℚ) :
    AppClean.clean_data df fs "iqr" t1 rep cats =
      AppClean.clean_data df fs "iqr" t2 rep cats ∧
    (AppClean.iqrFlag m x = true ↔
      x < quantileQ (1 / 4) m - 3 / 2 * (quantileQ (3 / 4) m - quantileQ (1 / 4) m) ∨
      x > quantileQ (3 / 4) m + 3 / 2 * (quantileQ (3 / 4) m - quantileQ (1 / 4) m)) := by
  constructor
  · unfold AppClean.clean_data
    split
    · rfl
    · simp only [outlierStage_iqr_threshold t1 t2 rep]
  · unfold AppClean.iqrFlag
    simp [or_comm]

/-- C10: in cleaner.py, an `outlier_replacement` that is neither
`"median"` nor `"mean"` silently falls through to the column median
(the `# Default to median` branch, no error is raised), and the
interpolated step-log entry still contains the unrecognized replacement
name verbatim. -/
theorem C10_unrecognized_replacement (rep : String) (m : List ℚ) (nm : String)
    (cnt : ℕ) (v : ℚ) (h1 : rep ≠ "median") (h2 : rep ≠ "mean") :
    CliClean.cliReplacement rep m = medianQ m ∧
    ∃ a b : String, CliClean.cliCapMsg nm cnt rep v = a ++ (rep ++ b) := by
  constructor
  · unfold CliClean.cliReplacement
    rw [if_neg h1, if_neg h2]
  · refine ⟨"Capped " ++ toString cnt ++ " outliers in " ++ nm ++ " to ",
      " (" ++ fmt2 v ++ ")", ?_⟩
    unfold CliClean.cliCapMsg
    simp [String.append_assoc]

/-- C10 witness: instantiated at the unrecognized replacement name
`"average"` on the column `[1, 2, 3]`. -/
theorem C10_witness :
    CliClean.cliReplacement "average" [1, 2, 3] = medianQ [1, 2, 3] ∧
    ∃ a b : String, CliClean.cliCapMsg "score" 2 "average" 5 = a ++ ("average" ++ b) :=
  C10_unrecognized_replacement "average" [1, 2, 3] "score" 2 5
    (by decide) (by decide)

/-- C9: a column name appears as a key of the report's missing-value map
only if the column had at least one missing value when the stage reached
it: each loop iteration adds its column's key only when the live missing
count is positive (second conjunct), and since no iteration ever
increases another column's missing count, every key of the final map
names a column that already had a missing value in the table the
missing-value stage started from (first conjunct). -/
theorem C9_missing_map_keys (tab : Table) (s rep : String) (cats : List String)
    (x : String) :
    (x ∈ (AppClean.missingStage s rep cats tab).2.map Prod.fst →
      ∃ j, j < tab.header.length ∧ tab.header.getD j "" = x ∧
        0 < countNa (tab.col j)) ∧
    (∀ (acc : Table × List (String × String)) (j : ℕ),
      x ∈ (AppClean.fillStepApp s rep cats acc j).2.map Prod.fst →
        x ∈ acc.2.map Prod.fst ∨
          (x = acc.1.header.getD j "" ∧ 0 < countNa (acc.1.col j))) := by
  constructor
  · intro h
    unfold AppClean.missingStage at h
    rcases fillCols_keys s rep cats tab (List.range tab.header.length) (tab, []) rfl
        (fun _ => le_refl _) x h with h2 | h2
    · simp at h2
    · obtain ⟨j, hj, hx, hc⟩ := h2
      exact ⟨j, List.mem_range.1 hj, hx.symm, hc⟩
  · exact fun acc j h => fillStepApp_keys s rep cats acc j x h

/-- C9 witness: on `tblOneNa` under the `"delete"` strategy the map has
the single key `"a"`, and indeed column `a` had a missing value. -/
theorem C9_witness :
    ∃ j, j < tblOneNa.header.length ∧ tblOneNa.header.getD j "" = "a" ∧
      0 < countNa (tblOneNa.col j) :=
  (C9_missing_map_keys tblOneNa "delete" "median" [] "a").1
    (by with_unfolding_all decide)

/-- C2 amended: under `MeanOrMode` with no declared categorical columns,
app.py's missing-value stage treats every column independently exactly as
the claim describes — numeric columns are filled with their median or
mean according to `outlier_replacement` when they have a non-missing
value (an entirely-missing numeric column stays missing, its fill value
NaN), non-numeric columns are filled with their most frequent value, and
an entirely-missing non-numeric column falls back to the text
`"Unknown"`.  cleaner.py's variant does NOT satisfy the claim: it always
fills numeric columns with the mean, ignoring `outlier_replacement` (see
the counterexample), and raises on an entirely-missing non-numeric
column instead of falling back to `"Unknown"`. -/
theorem C2_amended (tab : Table) (rep : String) (j : ℕ) (hWF : tab.WF)
    (hj : j < tab.header.length) :
    (AppClean.missingStage "mean_or_mode" rep [] tab).1.col j =
      specMeanModeFill rep (tab.col j) := by
  unfold AppClean.missingStage
  exact (fillCols_mm_col rep (List.range tab.header.length) (tab, []) j
    (List.nodup_range _) hWF hj).1 (List.mem_range.2 hj)

/-- C2 witness: the numeric column of `tblNumNa` under
`outlier_replacement = "median"`. -/
theorem C2_witness :
    (AppClean.missingStage "mean_or_mode" "median" [] tblNumNa).1.col 0 =
      specMeanModeFill "median" (tblNumNa.col 0) :=
  C2_amended tblNumNa "median" 0 (by decide) (by decide)

/-- Helper: the first index of a member is in range. -/
theorem colIdx_lt (hd : List String) (nm : String) (h : nm ∈ hd) :
    colIdx hd nm < hd.length :=
  List.findIdx_lt_length_of_exists ⟨nm, h, by simp⟩

/-- Helper: the header entry at the first index of a member is that member. -/
theorem getD_colIdx (hd : List String) (nm : String) (h : nm ∈ hd) :
    hd.getD (colIdx hd nm) "" = nm := by
  have hlt := colIdx_lt hd nm h
  rw [List.getD_eq_getElem hd "" hlt]
  have := List.findIdx_getElem (p := (· = nm)) (w := hlt)
  simpa using this

/-- C4 amended: the diagnosis standardization matches the column NAME
only against the two exact spellings `"Diagnosis"` and `"diagnosis"`
(any other casing is ignored), and matches cell VALUES case-sensitively
against the exact strings `"hypertension"` and `"high BP"` (no
substring, fuzzy, or case-insensitive matching — see counterexample).
When `"Diagnosis"` is present that column is rewritten in place and all
other columns are untouched; when only `"diagnosis"` is present the
rewritten values go to a NEW `"Diagnosis"` column appended at the end
and every existing column (including `"diagnosis"` itself) is untouched. -/
theorem C4_amended :
    (∀ t : Table, t.WF → "Diagnosis" ∈ t.header →
      (AppClean.diagStage t).1.header = t.header ∧
      (AppClean.diagStage t).1.col (colIdx t.header "Diagnosis") =
        (t.col (colIdx t.header "Diagnosis")).map AppClean.diagApply ∧
      ∀ j, j ≠ colIdx t.header "Diagnosis" →
        (AppClean.diagStage t).1.col j = t.col j) ∧
    (∀ t : Table, "Diagnosis" ∉ t.header → "diagnosis" ∈ t.header →
      (AppClean.diagStage t).1.header = t.header ++ ["Diagnosis"]) ∧
    (∀ t : Table, "Diagnosis" ∉ t.header → "diagnosis" ∉ t.header →
      AppClean.diagStage t = (t, [])) ∧
    (∀ s : String, AppClean.diagApply (Cell.str s) =
      if s = "hypertension" ∨ s = "high BP" then Cell.str "Hypertension"
      else Cell.str s) := by
  refine ⟨?_, ?_, ?_, fun s => rfl⟩
  · intro t hWF hD
    have hk := colIdx_lt t.header "Diagnosis" hD
    have hr : ∀ r ∈ t.rows, colIdx t.header "Diagnosis" < r.length :=
      fun r hrr => by rw [hWF r hrr]; exact hk
    unfold AppClean.diagStage
    rw [if_pos hD]
    refine ⟨rfl, ?_, ?_⟩
    · exact col_setCol_self t _ _ (by rw [List.length_map, length_col]) hr
    · intro j hj
      exact col_setCol_ne t _ _ j (by rw [List.length_map, length_col]) hj
  · intro t h1 h2
    unfold AppClean.diagStage
    rw [if_neg h1, if_pos h2]
    rfl
  · exact fun t h1 h2 => diagStage_none t h1 h2

/-- C4 witness: instantiations of the three conditional parts. -/
theorem C4_witness :
    (AppClean.diagStage tblHyp).1.col (colIdx tblHyp.header "Diagnosis") =
      (tblHyp.col (colIdx tblHyp.header "Diagnosis")).map AppClean.diagApply ∧
    (AppClean.diagStage ⟨["diagnosis"], [[Cell.str "x"]]⟩).1.header =
      ["diagnosis"] ++ ["Diagnosis"] ∧
    AppClean.diagStage tblPlain = (tblPlain, []) :=
  ⟨(C4_amended.1 tblHyp (by decide) (by decide)).2.1,
   C4_amended.2.1 ⟨["diagnosis"], [[Cell.str "x"]]⟩ (by decide) (by decide),
   C4_amended.2.2.1 tblPlain (by decide) (by decide)⟩

/-- C5 amended: `clean_data` mutates the caller's table only through the
in-place diagnosis standardization of app.py lines 37-41 (see the
counterexample); whenever the input has neither a `"Diagnosis"` nor a
`"diagnosis"` column, the caller's object is unchanged after the call
(all later stages work on the copy made by `drop_duplicates`). -/
theorem C5_amended (t : Table) (h1 : "Diagnosis" ∉ t.header) (h2 : "diagnosis" ∉ t.header) :
    AppClean.caller_view t = t := by
  unfold AppClean.caller_view
  rw [diagStage_none t h1 h2]
  split <;> rfl

/-- C5 witness: a table without diagnosis columns is left untouched. -/
theorem C5_witness : AppClean.caller_view tblPlain = tblPlain :=
  C5_amended tblPlain (by decide) (by decide)

/-- C7 amended: for every successful run, the cleaned row count is at
most the input row count under EVERY strategy (deduplication may drop
rows first, as the counterexample shows), and for every strategy other
than `"delete"` the cleaned row count equals the row count right after
deduplication — the column-wise fills never drop rows. -/
theorem C7_amended (df : Table) (fs om : String) (t : ℚ) (rep : String)
    (cats : List String) (out : Table) (r : Report)
    (h : AppClean.clean_data df fs om t rep cats = Except.ok (out, r)) :
    out.rows.length ≤ df.rows.length ∧
      (fs ≠ "delete" →
        out.rows.length = (dedupAux [] (AppClean.diagStage df).1.rows).length) := by
  simp only [AppClean.clean_data] at h
  split at h
  · exact Except.noConfusion h
  · split at h
    · exact Except.noConfusion h
    · rename_i p4 heq
      simp only [Except.ok.injEq, Prod.mk.injEq] at h
      have hout : out = (AppClean.missingStage fs rep cats p4.1).1 := h.1.symm
      have hfold := outlierFold_rows_length om t rep _ _ _ p4 heq
      have hdl : p4.1.rows.length = (dedupAux [] (AppClean.diagStage df).1.rows).length :=
        hfold.1
      constructor
      · calc out.rows.length ≤ p4.1.rows.length := by
              rw [hout]
              exact fillCols_rows_le fs rep cats _ _
          _ = (dedupAux [] (AppClean.diagStage df).1.rows).length := hdl
          _ ≤ (AppClean.diagStage df).1.rows.length := dedupAux_length_le _ _
          _ = df.rows.length := diagStage_rows_length df
      · intro hs
        calc out.rows.length = p4.1.rows.length := by
              rw [hout]
              exact fillCols_rows_eq fs rep cats hs _ _
          _ = (dedupAux [] (AppClean.diagStage df).1.rows).length := hdl

/-- C7 witness: instantiated on a run of the whole pipeline over
`tblOneNa` with the `"zero_missing"` strategy. -/
theorem C7_witness :
    ∃ (out : Table) (r : Report),
      AppClean.clean_data tblOneNa "zero_missing" "zscore" 3 "median" [] =
        Except.ok (out, r) ∧
      out.rows.length ≤ tblOneNa.rows.length ∧
      out.rows.length = (dedupAux [] (AppClean.diagStage tblOneNa).1.rows).length := by
  match hres : AppClean.clean_data tblOneNa "zero_missing" "zscore" 3 "median" [] with
  | Except.ok (out, r) =>
    have hc := C7_amended tblOneNa "zero_missing" "zscore" 3 "median" [] out r hres
    exact ⟨out, r, rfl, hc.1, hc.2 (by decide)⟩
  | Except.error e =>
    have hok : (AppClean.clean_data tblOneNa "zero_missing" "zscore" 3 "median" []).isOk
        = true := by with_unfolding_all rfl
    rw [hres] at hok
    exact Bool.noConfusion hok

/-- C8 amended: the deduplication, column-normalization, missing-value
and type-optimization stages each append exactly one step-log entry even
as no-ops, so every successful run's step log has at least 4 entries;
the outlier stage (and the diagnosis pass) append entries only when they
change something, so 5 is not a lower bound (see counterexample). -/
theorem C8_amended (df : Table) (fs om : String) (t : ℚ) (rep : String)
    (cats : List String) (out : Table) (r : Report)
    (h : AppClean.clean_data df fs om t rep cats = Except.ok (out, r)) :
    4 ≤ r.steps.length := by
  simp only [AppClean.clean_data] at h
  split at h
  · exact Except.noConfusion h
  · split at h
    · exact Except.noConfusion h
    · simp only [Except.ok.injEq, Prod.mk.injEq] at h
      have hr := h.2
      rw [← hr]
      simp only [List.length_append, List.length_cons, List.length_nil]
      omega

/-- C8 witness: instantiated on a concrete run (which happens to have
exactly 4 steps). -/
theorem C8_witness :
    ∃ (out : Table) (r : Report),
      AppClean.clean_data tblOneNa "zero_missing" "zscore" 3 "median" [] =
        Except.ok (out, r) ∧ 4 ≤ r.steps.length := by
  match hres : AppClean.clean_data tblOneNa "zero_missing" "zscore" 3 "median" [] with
  | Except.ok (out, r) =>
    exact ⟨out, r, rfl, C8_amended tblOneNa "zero_missing" "zscore" 3 "median" [] out r hres⟩
  | Except.error e =>
    have hok : (AppClean.clean_data tblOneNa "zero_missing" "zscore" 3 "median" []).isOk
        = true := by with_unfolding_all rfl
    rw [hres] at hok
    exact Bool.noConfusion hok

/-- C1: the claim demands that an unrecognized `fill_strategy` on a table
with missing values fail with an `UnsupportedConfiguration` error.  The
code does not: evaluated at `fill_strategy = "bogus"` on a column with a
missing value, cleaner.py's `clean_data` returns successfully and has
silently text-filled the missing cell with `"MISSING"`, and app.py's
`clean_data` returns successfully with the missing cell left untouched
and no error either. -/
theorem C1_silent_fallback_eval :
    (CliClean.clean_data tblStrNa "bogus" 3 false "median").toOption.map (fun p => p.1) =
      some ⟨["a"], [[Cell.str "x"], [Cell.str "MISSING"]]⟩ ∧
    (AppClean.clean_data tblStrNa "bogus" "zscore" 3 "median" []).toOption.map (fun p => p.1) =
      some ⟨["a"], [[Cell.str "x"], [Cell.na]]⟩ := by
  constructor
  · with_unfolding_all rfl
  · with_unfolding_all rfl

/-- C2 counterexample: with `fill_strategy = "mean_or_mode"` and
`outlier_replacement = "median"`, cleaner.py's `clean_data` fills the
numeric column `[1, 2, 10, missing]` with the MEAN 13/3, not with the
median 2 demanded by the claim. -/
theorem C2_counterexample :
    (CliClean.clean_data tblNumNa "mean_or_mode" 3 false "median").toOption.map
        (fun p => p.1.col 0) =
      some [Cell.num 1, Cell.num 2, Cell.num 10, Cell.num (13 / 3)] ∧
    medianQ [1, 2, 10] = 2 ∧ (13 / 3 : ℚ) ≠ 2 := by
  refine ⟨by with_unfolding_all rfl, by with_unfolding_all decide, by norm_num⟩

/-- C3 counterexample: app.py's `clean_data` takes no `apply_outliers`
argument; with the checkbox off the UI (lines 158-161) still calls it
with `zscore`/3.0/`median`, so on `tblOutlier` the outlier stage runs
anyway: the value 100 in column `v` is replaced by the median 0 and a
capping entry is appended to the step log (5 steps instead of 4). -/
theorem C3_counterexample :
    (AppClean.ui_clean tblOutlier "delete" false "iqr" 99 "mean" []).toOption.map
        (fun p => (p.1.col 0, p.2.steps.length)) =
      some (List.replicate 11 (Cell.num 0), 5) ∧
    tblOutlier.col 0 = List.replicate 10 (Cell.num 0) ++ [Cell.num 100] := by
  refine ⟨by with_unfolding_all rfl, by with_unfolding_all rfl⟩

/-- C4 counterexample: the claim demands exact case-INSENSITIVE matching
of cell text against the known variants, but `replace(diagnosis_map)`
matches case-sensitively: the `"Diagnosis"` cell `"High BP"` (a
case-variant of the mapped `"high BP"`) survives the whole pipeline
unchanged instead of becoming `"Hypertension"`. -/
theorem C4_counterexample :
    (AppClean.clean_data tblHighBP "delete" "zscore" 3 "median" []).toOption.map
        (fun p => p.1) =
      some ⟨["diagnosis"], [[Cell.str "High BP"]]⟩ := by
  with_unfolding_all rfl

/-- C5 counterexample: the claim says the caller's table is never
mutated, but the diagnosis standardization runs before the
`drop_duplicates` copy is made and assigns through the caller's object:
after the call, the caller's `"Diagnosis"` cell `"hypertension"` has
become `"Hypertension"`. -/
theorem C5_counterexample :
    AppClean.caller_view tblHyp = ⟨["Diagnosis"], [[Cell.str "Hypertension"]]⟩ ∧
    AppClean.caller_view tblHyp ≠ tblHyp := by
  refine ⟨by with_unfolding_all rfl, by with_unfolding_all decide⟩

/-- C7 counterexample: the claim demands output row count = input row
count for every non-Delete strategy, but deduplication runs for every
strategy: on two identical rows with `fill_strategy = "zero_missing"`
the cleaned table has 1 row while the input has 2. -/
theorem C7_counterexample :
    (AppClean.clean_data tblDup "zero_missing" "zscore" 3 "median" []).toOption.map
        (fun p => p.1.rows.length) = some 1 ∧
    tblDup.rows.length = 2 := by
  refine ⟨by with_unfolding_all rfl, by decide⟩

/-- C8 counterexample: the claim demands that every executed stage append
at least one step-log entry, but the outlier stage is silent when it
finds no outliers: on `tblPlain` all five stages run (dedup, column
normalization, outlier resolution, missing-value resolution, type
optimization) yet the step log has only 4 entries. -/
theorem C8_counterexample :
    (AppClean.clean_data tblPlain "delete" "zscore" 3 "median" []).toOption.map
        (fun p => p.2.steps.length) = some 4 ∧ (4 : ℕ) < 5 := by
  refine ⟨by with_unfolding_all rfl, by decide⟩

